import Mathlib

set_option autoImplicit false

/-!
Verification of the budgeting dashboard in `src/src/App.jsx`.

JavaScript objects are modelled as insertion-ordered association lists
(`JMap`): a property read returns the first matching entry, a property
write updates an existing key in place or appends a fresh one, and a
spread-merge (`{...a, ...b}`) folds the assignments of `b` over `a` from
left to right.  Monetary amounts are modelled as integers; `JsNum`
(`Option Int`) additionally represents the non-finite results of a
JavaScript `Number(...)` conversion (`NaN`, `±Infinity`) as `none`.

JavaScript numbers are IEEE-754 doubles.  Every integer of magnitude below
2^53 is represented exactly and integer sums stay exact, so on the
integer-valued stores treated here the integer model agrees with the
program.  Properties whose truth depends on double rounding — such as
reassociating sums of non-integer amounts — are outside this embedding.
-/

/-- A JavaScript object: insertion-ordered list of key/value pairs. -/
abbrev JMap (α : Type) := List (String × α)

namespace JMap

/-- Property read `o[c]`: first entry whose key is `c` (missing = `undefined`). -/
def get {α : Type} : JMap α → String → Option α
  | [], _ => none
  | (k, v) :: rest, c => if k = c then some v else get rest c

/-- Property write `o[c] = x`: update an existing key in place, else append. -/
def set {α : Type} : JMap α → String → α → JMap α
  | [], c, x => [(c, x)]
  | (k, v) :: rest, c, x => if k = c then (k, x) :: rest else (k, v) :: set rest c x

/-- `Object.keys(o)`. -/
def keysOf {α : Type} (o : JMap α) : List String := o.map (fun kv => kv.1)

/-- Numeric read `Number(o[c] || 0)`: a missing key reads as `0`. -/
def valOf (o : JMap Int) (c : String) : Int := (get o c).getD 0

/-- `Object.prototype.hasOwnProperty.call(o, c)`. -/
def hasKey {α : Type} (o : JMap α) (c : String) : Bool := (get o c).isSome

/-- Spread merge `{...a, ...b}`. -/
def merge {α : Type} (a b : JMap α) : JMap α :=
  b.foldl (fun acc kv => set acc kv.1 kv.2) a

/-- `Object.fromEntries(l.map(c => [c, 0]))`. -/
def fromZeros (l : List String) : JMap Int :=
  l.foldl (fun acc c => set acc c 0) []

theorem get_set_self {α : Type} (o : JMap α) (k : String) (v : α) :
    get (set o k v) k = some v := by
  induction o with
  | nil => simp [set, get]
  | cons hd tl ih =>
    by_cases h : hd.1 = k <;> simp [set, get, h, ih]

theorem get_set_ne {α : Type} (o : JMap α) (k c : String) (v : α) (h : c ≠ k) :
    get (set o k v) c = get o c := by
  induction o with
  | nil =>
    simp only [set, get]
    rw [if_neg (fun he => h he.symm)]
  | cons hd tl ih =>
    obtain ⟨a, b⟩ := hd
    by_cases hk : a = k
    · subst hk
      have hne : ¬a = c := fun he => h he.symm
      simp only [set, if_pos rfl, get, if_neg hne]
    · by_cases hc : a = c <;> simp [set, get, hk, hc, ih, h]

theorem get_set {α : Type} (o : JMap α) (k c : String) (v : α) :
    get (set o k v) c = if c = k then some v else get o c := by
  by_cases h : c = k
  · subst h; simp [get_set_self]
  · simp [h, get_set_ne o k c v h]

theorem mem_keys_of_get {α : Type} {o : JMap α} {k : String} {v : α}
    (h : get o k = some v) : k ∈ keysOf o := by
  induction o with
  | nil => simp [get] at h
  | cons hd tl ih =>
    by_cases hk : hd.1 = k
    · simp [keysOf, hk]
    · simp only [get, if_neg hk] at h
      simp only [keysOf, List.map_cons, List.mem_cons]
      exact Or.inr (ih h)

theorem get_eq_none_of_not_mem {α : Type} {o : JMap α} {k : String}
    (h : k ∉ keysOf o) : get o k = none := by
  induction o with
  | nil => rfl
  | cons hd tl ih =>
    simp only [keysOf, List.map_cons, List.mem_cons, not_or] at h
    simp only [get, if_neg (fun he : hd.1 = k => h.1 he.symm)]
    exact ih h.2

theorem set_eq_of_get {α : Type} {o : JMap α} {k : String} {v : α}
    (h : get o k = some v) : set o k v = o := by
  induction o with
  | nil => simp [get] at h
  | cons hd tl ih =>
    by_cases hk : hd.1 = k
    · simp only [get, if_pos hk, Option.some_inj] at h
      simp only [set, if_pos hk]
      rw [show hd = (hd.1, hd.2) from rfl, h]
    · simp only [get, if_neg hk] at h
      simp [set, hk, ih h]

theorem get_merge_of_not_mem {α : Type} (a : JMap α) {b : JMap α} {c : String}
    (h : get b c = none) : get (merge a b) c = get a c := by
  induction b generalizing a with
  | nil => rfl
  | cons hd tl ih =>
    by_cases hk : hd.1 = c
    · simp [get, hk] at h
    · simp only [get, if_neg hk] at h
      have hstep : merge a (hd :: tl) = merge (set a hd.1 hd.2) tl := rfl
      rw [hstep, ih _ h, get_set_ne _ _ _ _ (fun he => hk he.symm)]

theorem get_merge_of_get {α : Type} (a : JMap α) {b : JMap α} {c : String} {v : α}
    (hnd : (keysOf b).Nodup) (h : get b c = some v) : get (merge a b) c = some v := by
  induction b generalizing a with
  | nil => simp [get] at h
  | cons hd tl ih =>
    obtain ⟨a', b'⟩ := hd
    have hstep : merge a ((a', b') :: tl) = merge (set a a' b') tl := rfl
    rw [show keysOf ((a', b') :: tl) = a' :: keysOf tl from rfl] at hnd
    have hnd' := List.nodup_cons.mp hnd
    by_cases hk : a' = c
    · subst hk
      simp [get] at h
      subst h
      have htl : get tl a' = none := get_eq_none_of_not_mem hnd'.1
      rw [hstep, get_merge_of_not_mem _ htl]
      exact get_set_self a a' b'
    · simp only [get] at h
      rw [if_neg hk] at h
      rw [hstep]
      exact ih _ hnd'.2 h

theorem hasKey_set {α : Type} (o : JMap α) (k c : String) (v : α) :
    hasKey (set o k v) c = (hasKey o c || decide (c = k)) := by
  by_cases h : c = k
  · subst h; simp [hasKey, get_set_self]
  · simp [hasKey, get_set_ne o k c v h, h]

theorem hasKey_merge_left {α : Type} {a : JMap α} (b : JMap α) {c : String}
    (h : hasKey a c = true) : hasKey (merge a b) c = true := by
  induction b generalizing a with
  | nil => exact h
  | cons hd tl ih =>
    have hstep : merge a (hd :: tl) = merge (set a hd.1 hd.2) tl := rfl
    rw [hstep]
    exact ih (by simp [hasKey_set, h])

theorem foldl_zeros_get (l : List String) (acc : JMap Int) (c : String) :
    get (l.foldl (fun a k => set a k 0) acc) c =
      if c ∈ l then some 0 else get acc c := by
  induction l generalizing acc with
  | nil => simp
  | cons hd tl ih =>
    by_cases hmem : c ∈ tl
    · simp [List.foldl_cons, ih, hmem]
    · by_cases hhd : c = hd
      · subst hhd
        simp [List.foldl_cons, ih, hmem, get_set_self]
      · simp [List.foldl_cons, ih, hmem, hhd, get_set_ne _ _ _ _ hhd]

theorem get_fromZeros (l : List String) (c : String) :
    get (fromZeros l) c = if c ∈ l then some 0 else none := by
  simpa [fromZeros] using foldl_zeros_get l [] c

theorem mem_set {α : Type} {o : JMap α} {k c : String} {v x : α}
    (h : (c, x) ∈ set o k v) : (c, x) ∈ o ∨ (c = k ∧ x = v) := by
  induction o with
  | nil =>
    simp only [set, List.mem_singleton, Prod.mk.injEq] at h
    exact Or.inr h
  | cons hd tl ih =>
    by_cases hk : hd.1 = k
    · simp only [set, if_pos hk, List.mem_cons, Prod.mk.injEq] at h
      rcases h with ⟨h1, h2⟩ | h
      · exact Or.inr ⟨h1.trans hk, h2⟩
      · exact Or.inl (List.mem_cons_of_mem _ h)
    · simp only [set, if_neg hk, List.mem_cons] at h
      rcases h with h | h
      · exact Or.inl (by simp [h])
      · rcases ih h with h' | h'
        · exact Or.inl (List.mem_cons_of_mem _ h')
        · exact Or.inr h'

theorem values_foldl_zeros : ∀ (l : List String) (acc : JMap Int),
    (∀ e ∈ acc, e.2 = 0) → ∀ e ∈ l.foldl (fun a k => set a k 0) acc, e.2 = 0 := by
  intro l
  induction l with
  | nil =>
    intro acc hacc e he
    exact hacc e he
  | cons hd tl ih =>
    intro acc hacc e he
    refine ih (set acc hd 0) ?_ e he
    intro e' he'
    obtain ⟨c', x'⟩ := e'
    rcases mem_set he' with h' | h'
    · exact hacc _ h'
    · exact h'.2

theorem values_fromZeros {l : List String} {kv : String × Int}
    (h : kv ∈ fromZeros l) : kv.2 = 0 :=
  values_foldl_zeros l [] (by simp) kv h

theorem get_of_all_zero {o : JMap Int} {k : String}
    (hz : ∀ e ∈ o, e.2 = 0) (hk : k ∈ keysOf o) : get o k = some 0 := by
  induction o with
  | nil => simp [keysOf] at hk
  | cons hd tl ih =>
    by_cases h : hd.1 = k
    · have h0 : hd.2 = 0 := hz hd (by simp)
      simp [get, h, h0]
    · simp only [keysOf, List.map_cons, List.mem_cons] at hk
      rcases hk with hk | hk
      · exact absurd hk.symm h
      · simp only [get, if_neg h]
        exact ih (fun e he => hz e (List.mem_cons_of_mem _ he)) (by simpa [keysOf] using hk)

/-- Merging an all-zero object into an object that already holds `0` at all of
its keys is a no-op. -/
theorem merge_self_zeros {a b : JMap Int}
    (hzb : ∀ e ∈ b, e.2 = 0) (hab : ∀ e ∈ b, get a e.1 = some 0) :
    merge a b = a := by
  induction b generalizing a with
  | nil => rfl
  | cons hd tl ih =>
    have hstep : merge a (hd :: tl) = merge (set a hd.1 hd.2) tl := rfl
    have hhd : set a hd.1 hd.2 = a := by
      have h2 : hd.2 = 0 := hzb hd (by simp)
      rw [h2]
      exact set_eq_of_get (hab hd (by simp))
    rw [hstep, hhd]
    exact ih (fun e he => hzb e (List.mem_cons_of_mem _ he))
      (fun e he => hab e (List.mem_cons_of_mem _ he))

theorem merge_fromZeros_self (l : List String) :
    merge (fromZeros l) (fromZeros l) = fromZeros l := by
  refine merge_self_zeros (fun e he => values_fromZeros he) ?_
  intro e he
  exact get_of_all_zero (fun e' he' => values_fromZeros he')
    (List.mem_map_of_mem (fun kv => kv.1) he)

end JMap

/-! ## Data model -/

/-- The four buckets of a month record. -/
inductive Bucket
  | income
  | saving
  | investment
  | expense
deriving DecidableEq

/-- A month record: four buckets, each mapping category name to amount. -/
structure MonthRec where
  income : JMap Int
  saving : JMap Int
  investment : JMap Int
  expense : JMap Int
deriving DecidableEq

/-- Read the bucket `b` of a month record. -/
def MonthRec.app (r : MonthRec) (b : Bucket) : JMap Int :=
  match b with
  | .income => r.income
  | .saving => r.saving
  | .investment => r.investment
  | .expense => r.expense

/-- Replace the bucket `b` of a month record (`{...base, [k]: ...}`). -/
def MonthRec.setB (r : MonthRec) (b : Bucket) (o : JMap Int) : MonthRec :=
  match b with
  | .income => { r with income := o }
  | .saving => { r with saving := o }
  | .investment => { r with investment := o }
  | .expense => { r with expense := o }

/-- Four ordered category-name lists, one per bucket (template shape). -/
structure Templates where
  income : List String
  saving : List String
  investment : List String
  expense : List String
deriving DecidableEq

/-- Read the list of the template for bucket `b`. -/
def Templates.app (t : Templates) (b : Bucket) : List String :=
  match b with
  | .income => t.income
  | .saving => t.saving
  | .investment => t.investment
  | .expense => t.expense

/-- Replace the list of the template for bucket `b`. -/
def Templates.setT (t : Templates) (b : Bucket) (l : List String) : Templates :=
  match b with
  | .income => { t with income := l }
  | .saving => { t with saving := l }
  | .investment => { t with investment := l }
  | .expense => { t with expense := l }

/-- The settings record (`pl-settings`). -/
structure Settings where
  currency : String
  fyStartMonth : Int
  showMoMColors : Bool
  compactMode : Bool
deriving DecidableEq

/-- The ledger store (`pl-dashboard`): `{ months: {...} }`. -/
structure DataStore where
  months : JMap MonthRec
deriving DecidableEq

/-- `BASE_TEMPLATES` (App.jsx lines 11-20). -/
def BASE_TEMPLATES : Templates :=
  { income := ["Salary", "Cash", "Music", "Fitness", "Carry Over"],
    saving := ["Saving Blanket", "Cash", "Current"],
    investment := ["Apt Valuation", "Bitcoin", "Stocks", "Pension Valuation"],
    expense := ["Mortgage", "Jiujitsu", "CrossFit", "Food Shop", "Leisure/Concert",
      "Company car (N/A)", "TV/Mobile/Apps", "Supplements", "BONGO Dog",
      "Electricity", "Other", "Takeaway"] }

/-- `TEMPLATES` (App.jsx lines 55-60): built-ins followed by the user's custom names. -/
def fullTemplates (u : Templates) : Templates :=
  { income := BASE_TEMPLATES.income ++ u.income,
    saving := BASE_TEMPLATES.saving ++ u.saving,
    investment := BASE_TEMPLATES.investment ++ u.investment,
    expense := BASE_TEMPLATES.expense ++ u.expense }

/-- `emptyMonth(templates)` (App.jsx lines 22-29). -/
def emptyMonth (t : Templates) : MonthRec :=
  { income := JMap.fromZeros t.income,
    saving := JMap.fromZeros t.saving,
    investment := JMap.fromZeros t.investment,
    expense := JMap.fromZeros t.expense }

/-- `createInitialData(templates)` (App.jsx lines 31-35); `monthKey` is the
current calendar month's key. -/
def createInitialData (t : Templates) (monthKey : String) : DataStore :=
  ⟨[(monthKey, emptyMonth t)]⟩

/-! ## Month creation (carry-forward) -/

/-- `Array.prototype.sort()` on month keys: default lexicographic ascending order. -/
def sortKeys (l : List String) : List String :=
  l.insertionSort (fun a b => a ≤ b)

/-- The month-creation effect (App.jsx lines 83-95): if the selected month is
absent, create it by zero-filling every bucket from the template snapshot and
overlaying the saving/investment entries of the nearest earlier existing
month.  When `prevKey` is produced it is a key of `months`, so the `getD`
fallback of the lookup is unreachable. -/
def ensureSelectedMonth (t : Templates) (selectedMonth : String) (d : DataStore) : DataStore :=
  match JMap.get d.months selectedMonth with
  | some _ => d
  | none =>
    let keys := sortKeys (JMap.keysOf d.months)
    let prevKey := (keys.filter (fun k => decide (k < selectedMonth))).getLast?
    let carry :=
      match prevKey with
      | some pk => (JMap.get d.months pk).getD (emptyMonth t)
      | none => emptyMonth t
    let nextMonth := emptyMonth t
    let nextMonth' : MonthRec :=
      { nextMonth with
        saving := JMap.merge nextMonth.saving carry.saving,
        investment := JMap.merge nextMonth.investment carry.investment }
    ⟨JMap.set d.months selectedMonth nextMonth'⟩

/-! ## Fiscal-year window -/

/-- `String(m).padStart(2, "0")`. -/
def pad2 (m : Nat) : String :=
  if (toString m).length < 2 then "0" ++ toString m else toString m

/-- The month key `${year}-${String(month).padStart(2,"0")}`. -/
def monthKeyOf (y m : Nat) : String :=
  toString y ++ "-" ++ pad2 m

/-- `new Date(y, mi, 1)` for a nonnegative month index `mi`: the pair
(`getFullYear()`, `getMonth() + 1`). -/
def dateNorm (y mi : Nat) : Nat × Nat :=
  (y + mi / 12, mi % 12 + 1)

/-- `fiscalYearKeysFor(monthKey)` (App.jsx lines 104-114), applied to the
components `y`, `m` produced by `monthKey.split('-').map(Number)` and to
`startMonth = Number(settings.fyStartMonth || 1)`. -/
def fiscalYearKeysFor (y m startMonth : Nat) : List String :=
  let startYear := if m ≥ startMonth then y else y - 1
  (List.range 12).map (fun i =>
    let d := dateNorm startYear (startMonth - 1 + i)
    monthKeyOf d.1 d.2)

/-- The key of the calendar month with linear index `idx` (year `idx / 12`,
month `idx % 12 + 1`); used to state chronological consecutiveness. -/
def monthIdxKey (idx : Nat) : String :=
  monthKeyOf (idx / 12) (idx % 12 + 1)

/-! ## Aggregation -/

/-- Inner loop of `aggregated`: `acc[k][cat] = (acc[k][cat] || 0) + Number(val)`
over the entries of one month's bucket. -/
def bucketFold (acc entries : JMap Int) : JMap Int :=
  entries.foldl (fun a kv => JMap.set a kv.1 (JMap.valOf a kv.1 + kv.2)) acc

/-- One iteration of the outer month loop of `aggregated`. -/
def aggregateStep (acc : MonthRec) (mon : MonthRec) : MonthRec :=
  { income := bucketFold acc.income mon.income,
    saving := bucketFold acc.saving mon.saving,
    investment := bucketFold acc.investment mon.investment,
    expense := bucketFold acc.expense mon.expense }

/-- `aggregated` (App.jsx lines 123-135) over a list of requested month keys:
months absent from the ledger are skipped.  The running addition on line 130
is double addition in the source; it coincides with the exact integer
addition used here on integer amounts, but is not associative on general
doubles. -/
def aggregate (monthIds : List String) (d : DataStore) : MonthRec :=
  monthIds.foldl
    (fun acc mKey =>
      match JMap.get d.months mKey with
      | none => acc
      | some mon => aggregateStep acc mon)
    ⟨[], [], [], []⟩

/-- `sum(obj)` (App.jsx lines 43-45). -/
def sumVals (o : JMap Int) : Int :=
  (o.map (fun kv => kv.2)).sum

/-- `cashFlow = sum(aggregated.income) - sum(aggregated.expense)` (line 152). -/
def cashFlowOf (agg : MonthRec) : Int :=
  sumVals agg.income - sumVals agg.expense

/-! ## Mutation engine -/

/-- A JavaScript number restricted to the integers the app stores; `none`
stands for a non-finite `Number(...)` result (`NaN`, `±Infinity`). -/
abbrev JsNum := Option Int

/-- The drilldown buckets produced by `mapTitleToBucket` (App.jsx lines
205-210): `'income'`, `'expense'`, or the combined `'saving-invest'`. -/
inductive BSel
  | inc
  | exp
  | savInvest
deriving DecidableEq

/-- The pending undo: the snackbar closure `() => updateAmount(cat, val)`
reified.  `bucket` is the `breakdown.bucket` value captured by the closure at
the render that created it. -/
structure UndoAction where
  cat : String
  val : Int
  bucket : Option BSel
deriving DecidableEq

/-- The mutable application state touched by the mutation engine. -/
structure AppState where
  data : DataStore
  userTemplates : Templates
  settings : Settings
  snackbar : Option UndoAction
  breakdownBucket : Option BSel
deriving DecidableEq

/-- The bucket that `updateAmount` writes to for the combined saving+investment
view (App.jsx lines 258-262). -/
def resolveSavInvest (base : MonthRec) (t : Templates) (cat : String) : Bucket :=
  if JMap.hasKey base.saving cat then .saving
  else if JMap.hasKey base.investment cat then .investment
  else if t.saving.contains cat then .saving
  else .investment

/-- `updateAmount(cat, newAmtNum)` (App.jsx lines 241-270) run with a given
`breakdown.bucket` value: writes `Number(newAmtNum) || 0` into the resolved
bucket of the selected month and registers the undo closure
`() => updateAmount(cat, oldVal)` (which captures the same `breakdown.bucket`). -/
def updateAmountWith (bucket : Option BSel) (cat : String) (newAmtNum : JsNum)
    (selectedMonth : String) (st : AppState) : AppState :=
  match bucket with
  | none => st
  | some bsel =>
    let t := fullTemplates st.userTemplates
    let before := (JMap.get st.data.months selectedMonth).getD (emptyMonth t)
    let oldVal : Int :=
      match bsel with
      | .savInvest => JMap.valOf before.saving cat + JMap.valOf before.investment cat
      | .inc => JMap.valOf before.income cat
      | .exp => JMap.valOf before.expense cat
    let base := (JMap.get st.data.months selectedMonth).getD (emptyMonth t)
    let target : Bucket :=
      match bsel with
      | .inc => .income
      | .exp => .expense
      | .savInvest => resolveSavInvest base t cat
    let m := base.setB target (JMap.set (base.app target) cat (newAmtNum.getD 0))
    { st with
      data := ⟨JMap.set st.data.months selectedMonth m⟩,
      snackbar := some ⟨cat, oldVal, bucket⟩ }

/-- Pressing the snackbar's Undo button (App.jsx line 539): run the captured
closure, then clear the snackbar. -/
def undoClick (selectedMonth : String) (st : AppState) : AppState :=
  match st.snackbar with
  | none => st
  | some a =>
    { updateAmountWith a.bucket a.cat (some a.val) selectedMonth st with
      snackbar := none }

/-- `Array.from(new Set(l))`: deduplicate keeping first occurrences. -/
def jsSetDedupAux : List String → List String → List String
  | [], _ => []
  | x :: rest, seen =>
    if seen.contains x then jsSetDedupAux rest seen
    else x :: jsSetDedupAux rest (x :: seen)

/-- `Array.from(new Set(l))`. -/
def jsSetDedup (l : List String) : List String :=
  jsSetDedupAux l []

/-- Remember a custom subheading (App.jsx lines 186-191):
`Array.from(new Set([...(prev[kind] || []), name]))`. -/
def addCustom (u : Templates) (kind : Bucket) (name : String) : Templates :=
  u.setT kind (jsSetDedup (u.app kind ++ [name]))

/-- JavaScript `String.prototype.trim()`: strip leading and trailing
whitespace (modelled over the character list). -/
def jsTrim (s : String) : String :=
  ⟨((s.data.dropWhile Char.isWhitespace).reverse.dropWhile Char.isWhitespace).reverse⟩

/-- `addItem(kind)` (App.jsx lines 169-197).  `kind` is `showAdder` (`null`
when no adder is open), `amt = Number(newAmt)`, and the undo closure captures
the current `breakdown.bucket`. -/
def addItem (kind : Option Bucket) (newCat newOther : String) (amt : JsNum)
    (rememberSubheading : Bool) (selectedMonth : String) (st : AppState) : AppState :=
  let catToUse := if newOther ≠ "" ∧ jsTrim newOther ≠ "" then jsTrim newOther else newCat
  match kind with
  | none => st
  | some k =>
    if catToUse = "" ∨ amt = none then st
    else
      let amtV := amt.getD 0
      let t := fullTemplates st.userTemplates
      let prevMonth := (JMap.get st.data.months selectedMonth).getD (emptyMonth t)
      let prevVal := JMap.valOf (prevMonth.app k) catToUse
      let base := (JMap.get st.data.months selectedMonth).getD (emptyMonth t)
      let m := base.setB k
        (JMap.set (base.app k) catToUse (JMap.valOf (base.app k) catToUse + amtV))
      let ut' :=
        if newOther ≠ "" ∧ rememberSubheading then addCustom st.userTemplates k (jsTrim newOther)
        else st.userTemplates
      { st with
        data := ⟨JMap.set st.data.months selectedMonth m⟩,
        userTemplates := ut',
        snackbar := some ⟨catToUse, prevVal, st.breakdownBucket⟩ }

/-- `resetTemplates` (App.jsx lines 357-360): after the confirmation dialog,
clear the four custom category lists; declining leaves everything unchanged. -/
def resetTemplates (confirmed : Bool) (st : AppState) : AppState :=
  if confirmed then
    { st with userTemplates := { income := [], saving := [], investment := [], expense := [] } }
  else st

/-! ## Backup and restore

`downloadBackup` (App.jsx lines 329-338) serializes
`{ data, templates: userTemplates, settings }` with `JSON.stringify`;
`importBackup` (lines 340-350) parses the chosen file's text with
`JSON.parse` inside `try`/`catch` and, for each of the keys
`data`/`templates`/`settings`, replaces the corresponding store when the
key's value is truthy.  The platform `JSON.stringify`/`JSON.parse` pair is
modelled at the structured-value level: `Option Json` is the outcome of
`JSON.parse` (with `none` a `ParseError`, caught by the `catch` branch which
shows the alert), and the encoders below are the JSON shapes the app writes. -/

/-- A parsed JSON value. -/
inductive Json
  | null
  | bool (b : Bool)
  | num (n : Int)
  | str (s : String)
  | arr (elems : List Json)
  | obj (fields : List (String × Json))

/-- JavaScript truthiness of a parsed JSON value. -/
def Json.truthy : Json → Bool
  | .null => false
  | .bool b => b
  | .num n => decide (n ≠ 0)
  | .str s => decide (s ≠ "")
  | .arr _ => true
  | .obj _ => true

/-- `j.key`: property access on a parsed value.  Reading a property of
`null` throws a TypeError (`Except.error`); on an object it is the property
lookup, and on any other value a missing property reads as `undefined`
(`Except.ok none`). -/
def Json.getKey : Json → String → Except Unit (Option Json)
  | .null, _ => .error ()
  | .obj fields, k => .ok (JMap.get fields k)
  | _, _ => .ok none

/-- Encode one bucket's category→amount object. -/
def encAmounts (o : JMap Int) : Json :=
  .obj (o.map (fun kv => (kv.1, Json.num kv.2)))

/-- Encode a month record. -/
def encMonth (r : MonthRec) : Json :=
  .obj [("income", encAmounts r.income), ("saving", encAmounts r.saving),
        ("investment", encAmounts r.investment), ("expense", encAmounts r.expense)]

/-- Encode the ledger store `{ months: {...} }`. -/
def encData (d : DataStore) : Json :=
  .obj [("months", .obj (d.months.map (fun kv => (kv.1, encMonth kv.2))))]

/-- Encode a list of category names. -/
def encNames (l : List String) : Json :=
  .arr (l.map Json.str)

/-- Encode the custom-template store. -/
def encTemplates (t : Templates) : Json :=
  .obj [("income", encNames t.income), ("saving", encNames t.saving),
        ("investment", encNames t.investment), ("expense", encNames t.expense)]

/-- Encode the settings store. -/
def encSettings (s : Settings) : Json :=
  .obj [("currency", .str s.currency), ("fyStartMonth", .num s.fyStartMonth),
        ("showMoMColors", .bool s.showMoMColors), ("compactMode", .bool s.compactMode)]

/-- The backup payload `{ data, templates, settings }` of `downloadBackup`. -/
def serializeBackup (d : DataStore) (t : Templates) (s : Settings) : Json :=
  .obj [("data", encData d), ("templates", encTemplates t), ("settings", encSettings s)]

/-- Read one bucket's category→amount object back from its JSON shape. -/
def decAmountEntries : List (String × Json) → Option (JMap Int)
  | [] => some []
  | (k, .num n) :: rest => (decAmountEntries rest).map (fun o => (k, n) :: o)
  | _ => none

/-- Read a category→amount object back. -/
def decAmounts : Json → Option (JMap Int)
  | .obj fields => decAmountEntries fields
  | _ => none

/-- Read a month record back. -/
def decMonth : Json → Option MonthRec
  | .obj [("income", i), ("saving", s), ("investment", v), ("expense", e)] =>
    match decAmounts i, decAmounts s, decAmounts v, decAmounts e with
    | some oi, some os, some ov, some oe => some ⟨oi, os, ov, oe⟩
    | _, _, _, _ => none
  | _ => none

/-- Read the months object back. -/
def decMonthEntries : List (String × Json) → Option (JMap MonthRec)
  | [] => some []
  | (k, j) :: rest =>
    match decMonth j, decMonthEntries rest with
    | some r, some ms => some ((k, r) :: ms)
    | _, _ => none

/-- Read the ledger store back. -/
def decData : Json → Option DataStore
  | .obj [("months", .obj fields)] => (decMonthEntries fields).map DataStore.mk
  | _ => none

/-- Read a list of category names back. -/
def decNames : Json → Option (List String)
  | .arr elems =>
    elems.foldr
      (fun j acc =>
        match j, acc with
        | .str s, some l => some (s :: l)
        | _, _ => none)
      (some [])
  | _ => none

/-- Read the custom-template store back. -/
def decTemplates : Json → Option Templates
  | .obj [("income", i), ("saving", s), ("investment", v), ("expense", e)] =>
    match decNames i, decNames s, decNames v, decNames e with
    | some li, some ls, some lv, some le => some ⟨li, ls, lv, le⟩
    | _, _, _, _ => none
  | _ => none

/-- Read the settings store back. -/
def decSettings : Json → Option Settings
  | .obj [("currency", .str c), ("fyStartMonth", .num f),
          ("showMoMColors", .bool a), ("compactMode", .bool b)] =>
    some ⟨c, f, a, b⟩
  | _ => none

/-- The three persisted stores as replaced by `importBackup`. -/
structure Stores where
  data : DataStore
  templates : Templates
  settings : Settings
deriving DecidableEq

/-- `importBackup` (App.jsx lines 340-350).  The input is the outcome of
`JSON.parse` on the file's text (`none` = parse failure).  The returned flag
is whether the failure alert was shown.  Both a parse failure and the
TypeError thrown by `json.data` on a parsed top-level `null` land in the
`catch` branch: the alert is shown and no store is assigned.  Property
access can throw only on `null`, in which case all three accesses would
throw, so matching the three accesses jointly is equivalent to the source's
sequential accesses.  The untyped original assigns each truthy payload value
to the store as-is; the typed model reads it back through the decoder of the
blob shape the app itself writes, and keeps the previous store when the
value is not of that shape. -/
def importBackup (parsed : Option Json) (st : Stores) : Stores × Bool :=
  match parsed with
  | none => (st, true)
  | some j =>
    match j.getKey "data", j.getKey "templates", j.getKey "settings" with
    | .ok kd, .ok kt, .ok ks =>
      let st1 :=
        match kd with
        | some v =>
          if v.truthy then
            match decData v with
            | some d => { st with data := d }
            | none => st
          else st
        | none => st
      let st2 :=
        match kt with
        | some v =>
          if v.truthy then
            match decTemplates v with
            | some t => { st1 with templates := t }
            | none => st1
          else st1
        | none => st1
      let st3 :=
        match ks with
        | some v =>
          if v.truthy then
            match decSettings v with
            | some s => { st2 with settings := s }
            | none => st2
          else st2
        | none => st2
      (st3, false)
    | _, _, _ => (st, true)

/-! ## Fiscal-year window lemmas and claim C2 -/

theorem pad2_data_inj : ∀ m1 < 13, ∀ m2 < 13, 1 ≤ m1 → 1 ≤ m2 →
    (pad2 m1).data = (pad2 m2).data → m1 = m2 := by decide

theorem pad2_data_length : ∀ m < 13, 1 ≤ m → (pad2 m).data.length = 2 := by decide

theorem monthKeyOf_month_inj {y1 m1 y2 m2 : Nat} (h11 : 1 ≤ m1) (h12 : m1 ≤ 12)
    (h21 : 1 ≤ m2) (h22 : m2 ≤ 12) (heq : monthKeyOf y1 m1 = monthKeyOf y2 m2) :
    m1 = m2 := by
  have hdata := congrArg String.data heq
  have happ : ∀ a b : String, (a ++ b).data = a.data ++ b.data := fun a b => rfl
  simp only [monthKeyOf, happ] at hdata
  have hlen : (pad2 m1).data.length = (pad2 m2).data.length := by
    rw [pad2_data_length m1 (by omega) h11, pad2_data_length m2 (by omega) h21]
  have hp := (List.append_inj' hdata hlen).2
  exact pad2_data_inj m1 (by omega) m2 (by omega) h11 h21 hp

/-- C2: for a reference month `y`-`m` (1 ≤ m ≤ 12) and a fiscal start month
`s` in 1..12, `fiscalYearKeysFor` returns the 12 chronologically consecutive
month keys starting at month `s` of year `y` when `m ≥ s`, else of year
`y - 1`; the list has no duplicates, has length 12, and contains the
reference month's key. -/
theorem fiscalYearKeysFor_window (y m s : Nat) (hy : 1 ≤ y) (hm1 : 1 ≤ m)
    (hm2 : m ≤ 12) (hs1 : 1 ≤ s) (hs2 : s ≤ 12) :
    fiscalYearKeysFor y m s =
      (List.range 12).map
        (fun i => monthIdxKey (12 * (if s ≤ m then y else y - 1) + (s - 1) + i)) ∧
    monthKeyOf y m ∈ fiscalYearKeysFor y m s ∧
    (fiscalYearKeysFor y m s).Nodup ∧
    (fiscalYearKeysFor y m s).length = 12 := by
  refine ⟨?_, ?_, ?_, ?_⟩
  · simp only [fiscalYearKeysFor, dateNorm, monthIdxKey, ge_iff_le]
    apply List.map_congr_left
    intro i hi
    have hi' := List.mem_range.mp hi
    by_cases hcase : s ≤ m
    · rw [if_pos hcase]
      have e1 : y + (s - 1 + i) / 12 = (12 * y + (s - 1) + i) / 12 := by omega
      have e2 : (s - 1 + i) % 12 + 1 = (12 * y + (s - 1) + i) % 12 + 1 := by omega
      rw [e1, e2]
    · rw [if_neg hcase]
      have e1 : y - 1 + (s - 1 + i) / 12 = (12 * (y - 1) + (s - 1) + i) / 12 := by omega
      have e2 : (s - 1 + i) % 12 + 1 = (12 * (y - 1) + (s - 1) + i) % 12 + 1 := by omega
      rw [e1, e2]
  · simp only [fiscalYearKeysFor, dateNorm, ge_iff_le, List.mem_map]
    by_cases hcase : s ≤ m
    · refine ⟨m - s, List.mem_range.mpr (by omega), ?_⟩
      rw [if_pos hcase]
      have e1 : y + (s - 1 + (m - s)) / 12 = y := by omega
      have e2 : (s - 1 + (m - s)) % 12 + 1 = m := by omega
      rw [e1, e2]
    · refine ⟨m + 12 - s, List.mem_range.mpr (by omega), ?_⟩
      rw [if_neg hcase]
      have e1 : y - 1 + (s - 1 + (m + 12 - s)) / 12 = y := by omega
      have e2 : (s - 1 + (m + 12 - s)) % 12 + 1 = m := by omega
      rw [e1, e2]
  · simp only [fiscalYearKeysFor, dateNorm, ge_iff_le]
    refine List.Nodup.map_on ?_ (List.nodup_range 12)
    intro i hi j hj heq
    have hi' := List.mem_range.mp hi
    have hj' := List.mem_range.mp hj
    have hmi := monthKeyOf_month_inj (by omega) (by omega) (by omega) (by omega) heq
    omega
  · simp [fiscalYearKeysFor]

theorem fiscalYearKeysFor_window_witness :
    fiscalYearKeysFor 2024 2 4 =
      ["2023-04", "2023-05", "2023-06", "2023-07", "2023-08", "2023-09",
       "2023-10", "2023-11", "2023-12", "2024-01", "2024-02", "2024-03"] ∧
    monthKeyOf 2024 2 ∈ fiscalYearKeysFor 2024 2 4 ∧
    (fiscalYearKeysFor 2024 2 4).Nodup ∧
    (fiscalYearKeysFor 2024 2 4).length = 12 := by
  have h := fiscalYearKeysFor_window 2024 2 4 (by decide) (by decide) (by decide)
    (by decide) (by decide)
  exact ⟨by decide, h.2.1, h.2.2.1, h.2.2.2⟩

/-! ## Carry-forward lemmas and claim C1 -/

theorem getLast?_of_sorted_le {l : List String}
    (hs : l.Sorted (fun a b => a ≤ b)) {m : String} (hm : m ∈ l)
    (hmax : ∀ x ∈ l, x ≤ m) : l.getLast? = some m := by
  induction l with
  | nil => simp at hm
  | cons a rest ih =>
    cases rest with
    | nil =>
      simp at hm
      simp [hm]
    | cons b rest' =>
      rw [List.getLast?_cons_cons]
      have hsorted' : (b :: rest').Sorted (fun a b => a ≤ b) :=
        (List.sorted_cons.mp hs).2
      have hab : a ≤ b := (List.sorted_cons.mp hs).1 b (by simp)
      have hmem' : m ∈ b :: rest' := by
        rcases List.mem_cons.mp hm with hma | hmr
        · subst hma
          have hbm : b ≤ m := hmax b (by simp)
          have hmb : m ≤ b := hab
          have : b = m := le_antisymm hbm hmb
          simp [this]
        · exact hmr
      exact ih hsorted' hmem' (fun x hx => hmax x (List.mem_cons_of_mem _ hx))

theorem sortKeys_sorted (l : List String) :
    (sortKeys l).Sorted (fun a b => a ≤ b) :=
  List.sorted_insertionSort _ l

theorem sortKeys_perm (l : List String) : (sortKeys l).Perm l :=
  List.perm_insertionSort _ l

/-- `keys.filter((k) => k < selectedMonth).pop()` returns the nearest earlier
existing month key. -/
theorem prevKey_eq {months : JMap MonthRec} {m1 m2 : String}
    (hm1 : m1 ∈ JMap.keysOf months) (hlt : m1 < m2)
    (hnear : ∀ k ∈ JMap.keysOf months, k < m2 → k ≤ m1) :
    ((sortKeys (JMap.keysOf months)).filter (fun k => decide (k < m2))).getLast? =
      some m1 := by
  have hperm := sortKeys_perm (JMap.keysOf months)
  apply getLast?_of_sorted_le
  · exact List.Pairwise.filter _ (sortKeys_sorted (JMap.keysOf months))
  · exact List.mem_filter.mpr ⟨hperm.mem_iff.mpr hm1, by simpa using hlt⟩
  · intro x hx
    have hx' := List.mem_filter.mp hx
    exact hnear x (hperm.mem_iff.mp hx'.1) (by simpa using hx'.2)

/-- C1: when the selected month `m2` is absent, the month-creation step
carries the saving/investment entries of the nearest earlier existing month
`m1` forward exactly (categories absent from `m1`'s bucket fall back to the
zero-filled template shape), zero-initializes income and expense from the
template snapshot, and — when no earlier month exists — produces the
zero-filled template shape for all four buckets.  The `Nodup` hypotheses are
the JavaScript-object well-formedness of `m1`'s buckets (an object cannot
have duplicate keys). -/
theorem ensureMonth_carry_forward (t : Templates) (d : DataStore) (m2 : String)
    (habs : JMap.get d.months m2 = none) :
    (∀ m1 rec1, JMap.get d.months m1 = some rec1 → m1 < m2 →
      (∀ k ∈ JMap.keysOf d.months, k < m2 → k ≤ m1) →
      (JMap.keysOf rec1.saving).Nodup →
      (JMap.keysOf rec1.investment).Nodup →
      ∃ rec2, JMap.get (ensureSelectedMonth t m2 d).months m2 = some rec2 ∧
        rec2.income = JMap.fromZeros t.income ∧
        rec2.expense = JMap.fromZeros t.expense ∧
        (∀ c v, JMap.get rec1.saving c = some v → JMap.get rec2.saving c = some v) ∧
        (∀ c, JMap.get rec1.saving c = none →
          JMap.get rec2.saving c = JMap.get (JMap.fromZeros t.saving) c) ∧
        (∀ c v, JMap.get rec1.investment c = some v →
          JMap.get rec2.investment c = some v) ∧
        (∀ c, JMap.get rec1.investment c = none →
          JMap.get rec2.investment c = JMap.get (JMap.fromZeros t.investment) c)) ∧
    ((∀ k ∈ JMap.keysOf d.months, ¬k < m2) →
      JMap.get (ensureSelectedMonth t m2 d).months m2 = some (emptyMonth t)) := by
  constructor
  · intro m1 rec1 hget hlt hnear hndS hndI
    have hkey := prevKey_eq (JMap.mem_keys_of_get hget) hlt hnear
    have hrun : ensureSelectedMonth t m2 d =
        ⟨JMap.set d.months m2
          { emptyMonth t with
            saving := JMap.merge (JMap.fromZeros t.saving) rec1.saving,
            investment := JMap.merge (JMap.fromZeros t.investment) rec1.investment }⟩ := by
      simp only [ensureSelectedMonth, habs, hkey, hget, Option.getD_some]
      rfl
    refine ⟨_, by rw [hrun]; exact JMap.get_set_self _ _ _, rfl, rfl, ?_, ?_, ?_, ?_⟩
    · intro c v hc
      exact JMap.get_merge_of_get _ hndS hc
    · intro c hc
      exact JMap.get_merge_of_not_mem _ hc
    · intro c v hc
      exact JMap.get_merge_of_get _ hndI hc
    · intro c hc
      exact JMap.get_merge_of_not_mem _ hc
  · intro hnone
    have hfilter : (sortKeys (JMap.keysOf d.months)).filter
        (fun k => decide (k < m2)) = [] := by
      rw [List.filter_eq_nil_iff]
      intro a ha
      have := hnone a ((sortKeys_perm _).mem_iff.mp ha)
      simpa using this
    have hrun : ensureSelectedMonth t m2 d =
        ⟨JMap.set d.months m2
          { emptyMonth t with
            saving := JMap.merge (JMap.fromZeros t.saving) (JMap.fromZeros t.saving),
            investment :=
              JMap.merge (JMap.fromZeros t.investment) (JMap.fromZeros t.investment) }⟩ := by
      simp only [ensureSelectedMonth, habs, hfilter, List.getLast?_nil]
      rfl
    rw [hrun, JMap.merge_fromZeros_self, JMap.merge_fromZeros_self]
    exact JMap.get_set_self _ _ _

/-- Ledger for the C1 witness: the spec scenario, month 2024-03 with
`saving.Current = 500`. -/
def carryLedger : DataStore :=
  ⟨[("2024-03", { income := [], saving := [("Current", 500)], investment := [],
                  expense := [] })]⟩

theorem ensureMonth_carry_forward_witness :
    JMap.get carryLedger.months "2024-04" = none ∧
    ∃ rec2,
      JMap.get (ensureSelectedMonth (fullTemplates ⟨[], [], [], []⟩) "2024-04"
        carryLedger).months "2024-04" = some rec2 ∧
      JMap.get rec2.saving "Current" = some 500 ∧
      rec2.income = JMap.fromZeros (fullTemplates ⟨[], [], [], []⟩).income := by
  refine ⟨rfl, ?_⟩
  have h := (ensureMonth_carry_forward (fullTemplates ⟨[], [], [], []⟩) carryLedger
    "2024-04" rfl).1 "2024-03"
    { income := [], saving := [("Current", 500)], investment := [], expense := [] }
    rfl (String.lt_iff_toList_lt.mpr (by decide))
    (by
      intro k hk hklt
      have : k = "2024-03" := by
        simpa [carryLedger, JMap.keysOf] using hk
      simp [this])
    (by decide) (by decide)
  obtain ⟨rec2, hget, hinc, _, hS, _, _, _⟩ := h
  exact ⟨rec2, hget, hS "Current" 500 rfl, hinc⟩

/-! ## Template-completeness at month creation and claim C9 -/

theorem hasKey_fromZeros {l : List String} {c : String} (hc : c ∈ l) :
    JMap.hasKey (JMap.fromZeros l) c = true := by
  simp [JMap.hasKey, JMap.get_fromZeros, hc]

/-- Amended C9: at creation time, the month record created by the lazy
month-creation step has a (possibly zero) entry for every category of the
template snapshot, in every bucket.  (Month records created before a custom
category was added are not revisited; see the counterexample.) -/
theorem ensureMonth_template_complete (t : Templates) (d : DataStore) (m2 : String)
    (habs : JMap.get d.months m2 = none) :
    ∃ rec2, JMap.get (ensureSelectedMonth t m2 d).months m2 = some rec2 ∧
      ∀ b : Bucket, ∀ c ∈ t.app b, JMap.hasKey (rec2.app b) c = true := by
  simp only [ensureSelectedMonth, habs]
  refine ⟨_, JMap.get_set_self _ _ _, ?_⟩
  intro b c hc
  cases b with
  | income => exact hasKey_fromZeros hc
  | expense => exact hasKey_fromZeros hc
  | saving => exact JMap.hasKey_merge_left _ (hasKey_fromZeros hc)
  | investment => exact JMap.hasKey_merge_left _ (hasKey_fromZeros hc)

theorem ensureMonth_template_complete_witness :
    JMap.get carryLedger.months "2024-04" = none ∧
    ∃ rec2,
      JMap.get (ensureSelectedMonth (fullTemplates ⟨[], [], [], []⟩) "2024-04"
        carryLedger).months "2024-04" = some rec2 ∧
      JMap.hasKey (rec2.app .expense) "Mortgage" = true := by
  refine ⟨rfl, ?_⟩
  obtain ⟨rec2, hget, hall⟩ :=
    ensureMonth_template_complete (fullTemplates ⟨[], [], [], []⟩) carryLedger
      "2024-04" rfl
  exact ⟨rec2, hget, hall .expense "Mortgage" (by decide)⟩

/-- Initial state for the C9 counterexample: fresh install during 2024-01. -/
def tplStart : AppState :=
  { data := createInitialData (fullTemplates ⟨[], [], [], []⟩) "2024-01",
    userTemplates := ⟨[], [], [], []⟩,
    settings := { currency := "EUR", fyStartMonth := 1, showMoMColors := true,
                  compactMode := false },
    snackbar := none,
    breakdownBucket := none }

/-- The user selects 2024-02, which is created lazily. -/
def tplEnsured : AppState :=
  { tplStart with
    data := ensureSelectedMonth (fullTemplates tplStart.userTemplates) "2024-02"
      tplStart.data }

/-- The user then adds a remembered custom expense "Gym" to 2024-02. -/
def tplAfterAdd : AppState :=
  addItem (some .expense) "" "Gym" (some 50) true "2024-02" tplEnsured

/-- Counterexample to C9 as stated: after remembering the custom category
"Gym", the template store lists it for `expense`, but the month record
2024-01 — created before the category was added — has no entry for it. -/
theorem template_invariant_counterexample :
    "Gym" ∈ (fullTemplates tplAfterAdd.userTemplates).expense ∧
    JMap.get tplAfterAdd.data.months "2024-01" =
      some (emptyMonth (fullTemplates ⟨[], [], [], []⟩)) ∧
    JMap.get (emptyMonth (fullTemplates ⟨[], [], [], []⟩)).expense "Gym" = none := by
  refine ⟨by decide, ?_, by decide⟩
  have h2 : JMap.get tplAfterAdd.data.months "2024-01" =
      JMap.get tplEnsured.data.months "2024-01" :=
    JMap.get_set_ne _ _ _ _ (by decide)
  have h1 : JMap.get tplEnsured.data.months "2024-01" =
      JMap.get tplStart.data.months "2024-01" :=
    JMap.get_set_ne _ _ _ _ (by decide)
  rw [h2, h1]
  rfl

/-! ## Backup round-trip and claims C3, C6 -/

theorem decAmounts_enc (o : JMap Int) : decAmounts (encAmounts o) = some o := by
  simp only [encAmounts, decAmounts]
  induction o with
  | nil => rfl
  | cons kv rest ih =>
    obtain ⟨k, v⟩ := kv
    simp only [List.map_cons, decAmountEntries, ih]
    rfl

theorem decMonth_enc (r : MonthRec) : decMonth (encMonth r) = some r := by
  obtain ⟨i, s, v, e⟩ := r
  simp [encMonth, decMonth, decAmounts_enc]

theorem decMonthEntries_enc (ms : JMap MonthRec) :
    decMonthEntries (ms.map (fun kv => (kv.1, encMonth kv.2))) = some ms := by
  induction ms with
  | nil => rfl
  | cons kv rest ih =>
    obtain ⟨k, r⟩ := kv
    simp only [List.map_cons, decMonthEntries, decMonth_enc, ih]

theorem decData_enc (d : DataStore) : decData (encData d) = some d := by
  obtain ⟨ms⟩ := d
  simp [encData, decData, decMonthEntries_enc]

theorem decNames_enc (l : List String) : decNames (encNames l) = some l := by
  simp only [encNames, decNames]
  induction l with
  | nil => rfl
  | cons s rest ih =>
    simp only [List.map_cons, List.foldr_cons, ih]

theorem decTemplates_enc (t : Templates) : decTemplates (encTemplates t) = some t := by
  obtain ⟨i, s, v, e⟩ := t
  simp [encTemplates, decTemplates, decNames_enc]

theorem decSettings_enc (s : Settings) : decSettings (encSettings s) = some s := rfl

theorem truthy_encData (d : DataStore) : (encData d).truthy = true := rfl

theorem truthy_encTemplates (t : Templates) : (encTemplates t).truthy = true := rfl

theorem truthy_encSettings (s : Settings) : (encSettings s).truthy = true := rfl

/-- C3: restoring a backup produced by serializing the three stores
reproduces the ledger, templates, and settings exactly (and shows no failure
notice), from any prior state of the stores. -/
theorem importBackup_serializeBackup (st : Stores) (d : DataStore) (t : Templates)
    (s : Settings) :
    importBackup (some (serializeBackup d t s)) st = (⟨d, t, s⟩, false) := by
  simp [importBackup, serializeBackup, Json.getKey, JMap.get,
    truthy_encData, truthy_encTemplates, truthy_encSettings,
    decData_enc, decTemplates_enc, decSettings_enc]

/-- Ledger used by the C6 witness state. -/
def wLedger : DataStore :=
  ⟨[("2024-01", { income := [("Salary", 3000)], saving := [], investment := [],
                  expense := [("Rent", 1000)] }),
    ("2024-02", { income := [("Salary", 100)], saving := [], investment := [],
                  expense := [] })]⟩

/-- Store state used by the C6 witness and counterexample. -/
def wStores : Stores :=
  { data := wLedger, templates := ⟨[], [], [], ["Gym"]⟩,
    settings := { currency := "EUR", fyStartMonth := 4, showMoMColors := true,
                  compactMode := false } }

/-- Counterexample to C6 as stated: the text "null" is valid JSON, so the
parse succeeds, but `json.data` on the parsed `null` throws a TypeError that
lands in the same `catch` as a parse failure — the failure notice is shown on
a valid structured input (the stores are still left unchanged). -/
theorem restore_null_counterexample :
    (importBackup (some Json.null) wStores).2 = true ∧
    (importBackup (some Json.null) wStores).1 = wStores :=
  ⟨rfl, rfl⟩

/-- Amended C6: the restore surfaces the failure notice and leaves all three
stores unchanged when the text fails to parse, and also when the parsed
value is a top-level `null` (property access on `null` throws a TypeError
caught by the same handler); for every other parsed value no notice is
shown, and each store is replaced wholesale only if its key is present in
the payload — stores whose key is absent are untouched. -/
theorem importBackup_failure_and_partial (st : Stores) (j : Json)
    (hj : j ≠ Json.null) :
    importBackup none st = (st, true) ∧
    importBackup (some Json.null) st = (st, true) ∧
    (importBackup (some j) st).2 = false ∧
    (j.getKey "data" = .ok none → (importBackup (some j) st).1.data = st.data) ∧
    (j.getKey "templates" = .ok none →
      (importBackup (some j) st).1.templates = st.templates) ∧
    (j.getKey "settings" = .ok none →
      (importBackup (some j) st).1.settings = st.settings) := by
  refine ⟨rfl, rfl, ?_, ?_, ?_, ?_⟩
  · cases j with
    | null => exact absurd rfl hj
    | bool b => rfl
    | num n => rfl
    | str s => rfl
    | arr xs => rfl
    | obj fields => rfl
  · intro hd
    cases j with
    | null => exact absurd rfl hj
    | bool b => rfl
    | num n => rfl
    | str s => rfl
    | arr xs => rfl
    | obj fields =>
      have hd' : JMap.get fields "data" = none := by
        simpa [Json.getKey] using hd
      cases ht : JMap.get fields "templates" <;>
        cases hs : JMap.get fields "settings" <;>
        simp only [importBackup, Json.getKey, hd', ht, hs] <;>
        (try split) <;> (try split) <;> (try split) <;> (try split) <;> rfl
  · intro ht
    cases j with
    | null => exact absurd rfl hj
    | bool b => rfl
    | num n => rfl
    | str s => rfl
    | arr xs => rfl
    | obj fields =>
      have ht' : JMap.get fields "templates" = none := by
        simpa [Json.getKey] using ht
      cases hd : JMap.get fields "data" <;>
        cases hs : JMap.get fields "settings" <;>
        simp only [importBackup, Json.getKey, ht', hd, hs] <;>
        (try split) <;> (try split) <;> (try split) <;> (try split) <;> rfl
  · intro hs
    cases j with
    | null => exact absurd rfl hj
    | bool b => rfl
    | num n => rfl
    | str s => rfl
    | arr xs => rfl
    | obj fields =>
      have hs' : JMap.get fields "settings" = none := by
        simpa [Json.getKey] using hs
      cases hd : JMap.get fields "data" <;>
        cases ht : JMap.get fields "templates" <;>
        simp only [importBackup, Json.getKey, hs', hd, ht] <;>
        (try split) <;> (try split) <;> (try split) <;> (try split) <;> rfl

theorem importBackup_failure_and_partial_witness :
    (Json.num 5 ≠ Json.null) ∧
    importBackup none wStores = (wStores, true) ∧
    importBackup (some Json.null) wStores = (wStores, true) ∧
    (importBackup (some (Json.num 5)) wStores).2 = false ∧
    ((Json.num 5).getKey "data" = .ok none ∧
      (importBackup (some (Json.num 5)) wStores).1.data = wStores.data) ∧
    ((Json.num 5).getKey "templates" = .ok none ∧
      (importBackup (some (Json.num 5)) wStores).1.templates = wStores.templates) ∧
    ((Json.num 5).getKey "settings" = .ok none ∧
      (importBackup (some (Json.num 5)) wStores).1.settings = wStores.settings) := by
  have hne : Json.num 5 ≠ Json.null := fun hcontra => Json.noConfusion hcontra
  have h := importBackup_failure_and_partial wStores (Json.num 5) hne
  exact ⟨hne, h.1, h.2.1, h.2.2.1, ⟨rfl, h.2.2.2.1 rfl⟩, ⟨rfl, h.2.2.2.2.1 rfl⟩,
    ⟨rfl, h.2.2.2.2.2 rfl⟩⟩

/-! ## Input validation and claim C4 -/

/-- State for the C5 bug exhibit: the spec scenario — 2024-01 with
`income.Salary = 3000`, `expense.Rent = 1000`, no drilldown open
(`breakdown.bucket = null`), no pending undo. -/
def addUndoState : AppState :=
  { data := ⟨[("2024-01", { income := [("Salary", 3000)], saving := [],
                            investment := [], expense := [("Rent", 1000)] })]⟩,
    userTemplates := ⟨[], [], [], []⟩,
    settings := { currency := "EUR", fyStartMonth := 1, showMoMColors := true,
                  compactMode := false },
    snackbar := none,
    breakdownBucket := none }

/-- C5 (bug exhibit): adding 200 to expense Rent registers an undo whose
captured `breakdown.bucket` is `null`; invoking it runs `updateAmount`, which
returns immediately on a null bucket, so Rent stays 1200 and cashFlow 1800 —
the undo does not restore Rent to 1000 / cashFlow to 2000 as the undo
contract requires. -/
theorem addItem_undo_lost :
    (JMap.get (addItem (some .expense) "Rent" "" (some 200) true "2024-01"
        addUndoState).data.months "2024-01" =
      some { income := [("Salary", 3000)], saving := [], investment := [],
             expense := [("Rent", 1200)] }) ∧
    ((addItem (some .expense) "Rent" "" (some 200) true "2024-01"
        addUndoState).snackbar = some ⟨"Rent", 1000, none⟩) ∧
    ((undoClick "2024-01" (addItem (some .expense) "Rent" "" (some 200) true
        "2024-01" addUndoState)).data =
      (addItem (some .expense) "Rent" "" (some 200) true "2024-01"
        addUndoState).data) ∧
    (cashFlowOf (aggregate ["2024-01"]
        (undoClick "2024-01" (addItem (some .expense) "Rent" "" (some 200) true
          "2024-01" addUndoState)).data) = 1800) := by
  refine ⟨by decide, by decide, by decide, by decide⟩

/-! ## Combined-bucket resolution and claim C8 -/

/-- C8: an edit through the combined saving+investment pseudo-bucket writes
to the bucket resolved by this exact precedence — saving if the month's
saving bucket has the key, else investment if its investment bucket has the
key, else saving if the saving template contains the category, else
investment; the registered undo captures the combined prior value. -/
theorem updateAmount_savInvest_resolution (st : AppState) (cat selectedMonth : String)
    (amt : JsNum) :
    (updateAmountWith (some .savInvest) cat amt selectedMonth st).data.months =
      JMap.set st.data.months selectedMonth
        ((((JMap.get st.data.months selectedMonth).getD
            (emptyMonth (fullTemplates st.userTemplates))).setB
          (if JMap.hasKey ((JMap.get st.data.months selectedMonth).getD
                (emptyMonth (fullTemplates st.userTemplates))).saving cat then .saving
           else if JMap.hasKey ((JMap.get st.data.months selectedMonth).getD
                (emptyMonth (fullTemplates st.userTemplates))).investment cat then
             .investment
           else if (fullTemplates st.userTemplates).saving.contains cat then .saving
           else .investment)
          (JMap.set
            (((JMap.get st.data.months selectedMonth).getD
                (emptyMonth (fullTemplates st.userTemplates))).app
              (if JMap.hasKey ((JMap.get st.data.months selectedMonth).getD
                    (emptyMonth (fullTemplates st.userTemplates))).saving cat then
                 Bucket.saving
               else if JMap.hasKey ((JMap.get st.data.months selectedMonth).getD
                    (emptyMonth (fullTemplates st.userTemplates))).investment cat then
                 .investment
               else if (fullTemplates st.userTemplates).saving.contains cat then .saving
               else .investment))
            cat (amt.getD 0)))) ∧
    (updateAmountWith (some .savInvest) cat amt selectedMonth st).snackbar =
      some ⟨cat,
        JMap.valOf ((JMap.get st.data.months selectedMonth).getD
          (emptyMonth (fullTemplates st.userTemplates))).saving cat +
        JMap.valOf ((JMap.get st.data.months selectedMonth).getD
          (emptyMonth (fullTemplates st.userTemplates))).investment cat,
        some .savInvest⟩ := by
  exact ⟨rfl, rfl⟩

/-! ## Template reset and claim C10 -/

/-- C10: a confirmed template reset clears exactly the four custom category
lists; the ledger and the settings are untouched, so every existing month
record (including entries for formerly remembered custom categories) keeps
its amounts. -/
theorem resetTemplates_frame (st : AppState) (mKey : String) :
    (resetTemplates true st).userTemplates =
      { income := [], saving := [], investment := [], expense := [] } ∧
    (resetTemplates true st).data = st.data ∧
    (resetTemplates true st).settings = st.settings ∧
    JMap.get (resetTemplates true st).data.months mKey =
      JMap.get st.data.months mKey := by
  exact ⟨rfl, rfl, rfl, rfl⟩
